import Mathlib

/-
Verification of the IAT trial-generation module (iat/models.py).

The embedding keeps the structure of the source:
  - STIMULI is the stimulus catalog (a nested mapping, rendered as
    association lists so that lookups stay executable);
  - BLOCKS is the ordered list of block definitions;
  - generate models the per-player body of Subsession.creating_session
    (lines 157-173 of models.py): expand the pairs of both sides into
    (side, category, level, word) tuples, shuffle, compare the length
    against the declared n, and number the trials from 1;
  - creating_session models the loop over players plus the single
    bulk_create call at the end;
  - custom_export models the fallback CSV exporter.

Randomness is modelled by passing the shuffle as a function argument;
theorems that depend on it assume only that it permutes its input, which
is the contract of random.shuffle.
-/

namespace IAT

/-- A stimulus catalog: category name to level name to word list,
as association lists mirroring the nested dict in the source. -/
abbrev Catalog := List (String × List (String × List String))

/-- The shipped STIMULI configuration (models.py lines 39-48). -/
def STIMULI : Catalog :=
  [ ("attributes",
      [ ("Male", ["Man", "Son", "Father", "Boy", "Uncle", "Grandpa", "Husband"]),
        ("Female", ["Mother", "Wife", "Aunt", "Woman", "Girl", "Grandma", "Daughter"]) ]),
    ("concepts",
      [ ("Science", ["Astronomy", "Math", "Chemistry", "Physics", "Biology", "Geology", "Engineering"]),
        ("Liberal Arts", ["History", "Arts", "Humanities", "English", "Philosophy", "Music", "Literature"]) ]) ]

/-- A block definition (one entry of BLOCKS in the source). -/
structure BlockDef where
  label : String
  n : Nat
  left : List (String × String)
  right : List (String × String)
  is_practice : Bool := false
  notice : Option String := none
deriving DecidableEq

/-- The shipped BLOCKS configuration (models.py lines 61-132). -/
def BLOCKS : List BlockDef :=
  [ { label := "Practice 1", n := 14,
      left := [("concepts", "Liberal Arts")],
      right := [("concepts", "Science")],
      is_practice := true },
    { label := "Practice 2", n := 14,
      left := [("attributes", "Female")],
      right := [("attributes", "Male")],
      is_practice := true },
    { label := "Test 1", n := 28,
      left := [("attributes", "Female"), ("concepts", "Liberal Arts")],
      right := [("attributes", "Male"), ("concepts", "Science")] },
    { label := "Test 2", n := 28,
      left := [("attributes", "Female"), ("concepts", "Liberal Arts")],
      right := [("attributes", "Male"), ("concepts", "Science")] },
    { label := "Practice 3 (reversed)", n := 14,
      left := [("concepts", "Science")],
      right := [("concepts", "Liberal Arts")],
      is_practice := true,
      notice := some "WATCH OUT, the categories switch sides!" },
    { label := "Test 3", n := 28,
      left := [("attributes", "Female"), ("concepts", "Science")],
      right := [("attributes", "Male"), ("concepts", "Liberal Arts")] },
    { label := "Test 4", n := 28,
      left := [("attributes", "Female"), ("concepts", "Science")],
      right := [("attributes", "Male"), ("concepts", "Liberal Arts")] } ]

/-- One generated stimulus tuple (side, category, level, word), modelling
the plain 4-tuples built by zip in models.py line 162. -/
structure Stim where
  side : String
  cat : String
  lvl : String
  word : String
deriving DecidableEq

/-- Errors creating_session can raise: a failed catalog lookup is the
KeyError of STIMULI[stim_class][stim_lvl], countMismatch is the ValueError
of lines 167-169 (carrying both counts, as the message does), badRound is
the IndexError of BLOCKS[block_num]. -/
inductive GenError where
  | unknownPair (cat lvl : String)
  | countMismatch (found declared : Nat)
  | badRound (r : Nat)
deriving DecidableEq

/-- Catalog lookup STIMULI[cat][lvl] (models.py line 160). -/
def catLookup (catalog : Catalog) (cat lvl : String) : Option (List String) :=
  match catalog.lookup cat with
  | some levels => levels.lookup lvl
  | none => none

/-- Expansion of the (category, level) pairs of one side into tuples,
one per catalog word, in catalog order (models.py lines 159-162). -/
def expandPairs (catalog : Catalog) (side : String) :
    List (String × String) → Except GenError (List Stim)
  | [] => .ok []
  | (cat, lvl) :: rest =>
    match catLookup catalog cat lvl with
    | none => .error (.unknownPair cat lvl)
    | some ws =>
      match expandPairs catalog side rest with
      | .error e => .error e
      | .ok t => .ok (ws.map (fun w => ⟨side, cat, lvl, w⟩) ++ t)

/-- The full pre-shuffle stimulus list: left side then right side
(models.py lines 157-162, with side iterating over left, right). -/
def buildStimuli (catalog : Catalog) (bd : BlockDef) : Except GenError (List Stim) :=
  match expandPairs catalog "left" bd.left with
  | .error e => .error e
  | .ok l =>
    match expandPairs catalog "right" bd.right with
    | .error e => .error e
    | .ok r => .ok (l ++ r)

/-- Trial generation for one block (models.py lines 157-173): build the
stimuli, shuffle them (the source shuffles in place at line 165, before
the count check at line 167), compare the length of the shuffled list to
the declared n, then number the stimuli from 1 as enumerate does. -/
def generate (shuffle : List Stim → List Stim) (catalog : Catalog) (bd : BlockDef) :
    Except GenError (List (Nat × Stim)) :=
  match buildStimuli catalog bd with
  | .error e => .error e
  | .ok stimuli =>
    let shuffled := shuffle stimuli
    if shuffled.length ≠ bd.n then
      .error (.countMismatch shuffled.length bd.n)
    else
      .ok (shuffled.enum.map (fun x => (x.1 + 1, x.2)))

/-- A player, reduced to the fields creating_session reads: its identity
and its round number (1-based in oTree). -/
structure Player where
  id : Nat
  round_number : Nat
deriving DecidableEq

/-- A Trial record as created at session build time (models.py lines
175-182 and the model fields at lines 195-212); the three response fields
are still unanswered (null) at creation. -/
structure Trial where
  block : Nat
  trial : Nat
  stimulus : String
  stimulus_class : String
  stimulus_level : String
  response_key : Option String := none
  response_correct : Option Bool := none
  response_time_ms : Option Nat := none
  player : Nat
deriving DecidableEq

/-- Materialization of the numbered tuples into Trial records for one
player (models.py lines 171-182). -/
def mkTrials (p : Player) (numbered : List (Nat × Stim)) : List Trial :=
  numbered.map (fun x =>
    { block := p.round_number,
      trial := x.1,
      stimulus := x.2.word,
      stimulus_class := x.2.cat,
      stimulus_level := x.2.lvl,
      player := p.id })

/-- The body of the player loop for one player (models.py lines 153-182):
select BLOCKS[round_number - 1], generate, materialize. -/
def playerTrials (shuffle : List Stim → List Stim) (catalog : Catalog)
    (blocks : List BlockDef) (p : Player) : Except GenError (List Trial) :=
  match blocks[p.round_number - 1]? with
  | none => .error (.badRound p.round_number)
  | some bd =>
    match generate shuffle catalog bd with
    | .error e => .error e
    | .ok numbered => .ok (mkTrials p numbered)

/-- Subsession.creating_session (models.py lines 145-184): accumulate the
trials of every player in order; the first failure aborts the whole build. -/
def creating_session (shuffle : List Stim → List Stim) (catalog : Catalog)
    (blocks : List BlockDef) : List Player → Except GenError (List Trial)
  | [] => .ok []
  | p :: ps =>
    match playerTrials shuffle catalog blocks p with
    | .error e => .error e
    | .ok seg =>
      match creating_session shuffle catalog blocks ps with
      | .error e => .error e
      | .ok rest => .ok (seg ++ rest)

/-- What ends up persisted by the single Trial.objects.bulk_create call at
line 184: the accumulated list on success, nothing when creating_session
raised before reaching the bulk_create. -/
def persistedTrials (shuffle : List Stim → List Stim) (catalog : Catalog)
    (blocks : List BlockDef) (players : List Player) : List Trial :=
  match creating_session shuffle catalog blocks players with
  | .ok l => l
  | .error _ => []

/-- A raw field value of a Trial row before CSV sanitization. -/
inductive CellVal where
  | nullV
  | boolV (b : Bool)
  | natV (n : Nat)
  | strV (s : String)
deriving DecidableEq

/-- The fixed field list of the fallback exporter (models.py lines 235-236). -/
def fields_to_export : List String :=
  ["block", "trial", "stimulus", "stimulus_class", "stimulus_level",
   "response_key", "response_correct", "response_time_ms"]

/-- getattr on a Trial for the exported field names (models.py line 240). -/
def trialField (t : Trial) : String → CellVal
  | "block" => .natV t.block
  | "trial" => .natV t.trial
  | "stimulus" => .strV t.stimulus
  | "stimulus_class" => .strV (Trial.stimulus_class t)
  | "stimulus_level" => .strV (Trial.stimulus_level t)
  | "response_key" =>
    match t.response_key with
    | none => .nullV
    | some s => .strV s
  | "response_correct" =>
    match t.response_correct with
    | none => .nullV
    | some b => .boolV b
  | "response_time_ms" =>
    match t.response_time_ms with
    | none => .nullV
    | some n => .natV n
  | _ => .nullV

/-- The fallback custom_export (models.py lines 231-240): a header row,
then one row per stored Trial holding the codes of the owning player
(session code and participant code, looked up through the player id) and
the sanitized Trial fields. The sanitizer san stands for the external
sanitize_for_csv, which the claims treat as an opaque collaborator. -/
def custom_export (san : CellVal → String) (codes : Nat → String × String)
    (store : List Trial) : List (List String) :=
  (["session", "participant_code"] ++ fields_to_export)
    :: store.map (fun t =>
        [(codes t.player).1, (codes t.player).2]
          ++ fields_to_export.map (fun f => san (trialField t f)))

/-- The spec reference algorithm for trial generation, written to compare
with the implementation: it performs step 3 (compare the pre-shuffle
sequence length to the declared n) before step 4 (apply the permutation),
as section 4.1 of the spec orders the steps. -/
def generateSpec (shuffle : List Stim → List Stim) (catalog : Catalog) (bd : BlockDef) :
    Except GenError (List (Nat × Stim)) :=
  match buildStimuli catalog bd with
  | .error e => .error e
  | .ok stimuli =>
    if stimuli.length ≠ bd.n then
      .error (.countMismatch stimuli.length bd.n)
    else
      .ok ((shuffle stimuli).enum.map (fun x => (x.1 + 1, x.2)))

/-- The stimulus sequence as it stands before the shuffle of line 165. -/
def preShuffleStimuli (catalog : Catalog) (bd : BlockDef) : Option (List Stim) :=
  (buildStimuli catalog bd).toOption

/-- The stimulus sequence whose length the implementation compares against
the declared n: the source applies random.shuffle at line 165 before the
count check at line 167, so the checked sequence is the shuffled one. -/
def checkedStimuli (shuffle : List Stim → List Stim) (catalog : Catalog)
    (bd : BlockDef) : Option (List Stim) :=
  (buildStimuli catalog bd).toOption.map shuffle

/-- Number of stimuli a block expands to, when all its pairs resolve. -/
def stimCount (catalog : Catalog) (bd : BlockDef) : Option Nat :=
  (buildStimuli catalog bd).toOption.map List.length

/-- Reference expansion of a list of pairs: one tuple per catalog word of
each pair, in order; expandPairs returns exactly this when every lookup
succeeds. -/
def expandedPairs (catalog : Catalog) (side : String)
    (ps : List (String × String)) : List Stim :=
  ps.flatMap (fun q =>
    ((catLookup catalog q.1 q.2).getD []).map (fun w => ⟨side, q.1, q.2, w⟩))

/-- The catalog of end-to-end scenario A of the spec. -/
def CAT_A : Catalog :=
  [ ("concepts",
      [ ("Science", ["Astronomy", "Math"]),
        ("Liberal Arts", ["History", "Arts"]) ]) ]

/-- The block of end-to-end scenario A of the spec. -/
def BLOCK_A : BlockDef :=
  { label := "A", n := 4,
    left := [("concepts", "Liberal Arts")],
    right := [("concepts", "Science")] }

/-- A block whose declared n disagrees with the catalog word count of its
pairs under CAT_A (4 words against a declared 14). -/
def BLOCK_B : BlockDef :=
  { label := "B", n := 14,
    left := [("concepts", "Liberal Arts")],
    right := [("concepts", "Science")] }

/-- The pre-shuffle stimulus list of scenario A (what buildStimuli CAT_A
BLOCK_A computes to). -/
def S_A : List Stim :=
  [⟨"left", "concepts", "Liberal Arts", "History"⟩,
   ⟨"left", "concepts", "Liberal Arts", "Arts"⟩,
   ⟨"right", "concepts", "Science", "Astronomy"⟩,
   ⟨"right", "concepts", "Science", "Math"⟩]

/-- The generation output at scenario A under the reverse permutation. -/
def OUT_A : List (Nat × Stim) :=
  [(1, ⟨"right", "concepts", "Science", "Math"⟩),
   (2, ⟨"right", "concepts", "Science", "Astronomy"⟩),
   (3, ⟨"left", "concepts", "Liberal Arts", "Arts"⟩),
   (4, ⟨"left", "concepts", "Liberal Arts", "History"⟩)]

/-- The generation output at scenario A under the identity permutation. -/
def OUT_ID : List (Nat × Stim) :=
  [(1, ⟨"left", "concepts", "Liberal Arts", "History"⟩),
   (2, ⟨"left", "concepts", "Liberal Arts", "Arts"⟩),
   (3, ⟨"right", "concepts", "Science", "Astronomy"⟩),
   (4, ⟨"right", "concepts", "Science", "Math"⟩)]

/-
Helper lemmas
-/

lemma enumFrom_plusOne_fst {α : Type} (l : List α) :
    ∀ n, ((List.enumFrom n l).map (fun x => (x.1 + 1, x.2))).map Prod.fst
      = List.range' (n + 1) l.length := by
  induction l with
  | nil => intro n; rfl
  | cons a t ih =>
    intro n
    simp only [List.enumFrom, List.map, List.length, List.range']
    rw [ih (n + 1)]

lemma enumFrom_plusOne_snd {α : Type} (l : List α) :
    ∀ n, ((List.enumFrom n l).map (fun x => (x.1 + 1, x.2))).map Prod.snd = l := by
  induction l with
  | nil => intro n; rfl
  | cons a t ih =>
    intro n
    simp only [List.enumFrom, List.map]
    rw [ih (n + 1)]

lemma numbered_fst {α : Type} (l : List α) :
    ((l.enum.map (fun x => (x.1 + 1, x.2))).map Prod.fst) = List.range' 1 l.length := by
  simpa [List.enum] using enumFrom_plusOne_fst l 0

lemma numbered_snd {α : Type} (l : List α) :
    (l.enum.map (fun x => (x.1 + 1, x.2))).map Prod.snd = l := by
  simpa [List.enum] using enumFrom_plusOne_snd l 0

lemma expandPairs_ok_eq {catalog : Catalog} {side : String} :
    ∀ {ps : List (String × String)} {t : List Stim},
      expandPairs catalog side ps = .ok t → t = expandedPairs catalog side ps := by
  intro ps
  induction ps with
  | nil =>
    intro t h
    simp only [expandPairs, Except.ok.injEq] at h
    simp [expandedPairs, ← h]
  | cons q rest ih =>
    intro t h
    obtain ⟨cat, lvl⟩ := q
    simp only [expandPairs] at h
    cases hcl : catLookup catalog cat lvl with
    | none => rw [hcl] at h; exact absurd h (by simp)
    | some ws =>
      rw [hcl] at h
      cases hrest : expandPairs catalog side rest with
      | error e => rw [hrest] at h; exact absurd h (by simp)
      | ok tr =>
        rw [hrest] at h
        simp only [Except.ok.injEq] at h
        rw [← h, ih hrest]
        simp [expandedPairs, hcl]

lemma buildStimuli_ok_eq {catalog : Catalog} {bd : BlockDef} {s : List Stim}
    (h : buildStimuli catalog bd = .ok s) :
    s = expandedPairs catalog "left" bd.left ++ expandedPairs catalog "right" bd.right := by
  unfold buildStimuli at h
  cases hl : expandPairs catalog "left" bd.left with
  | error e => rw [hl] at h; exact absurd h (by simp)
  | ok l =>
    rw [hl] at h
    cases hr : expandPairs catalog "right" bd.right with
    | error e => rw [hr] at h; exact absurd h (by simp)
    | ok r =>
      rw [hr] at h
      simp only [Except.ok.injEq] at h
      rw [← h, expandPairs_ok_eq hl, expandPairs_ok_eq hr]

lemma generate_ok_of {shuffle : List Stim → List Stim} {catalog : Catalog}
    {bd : BlockDef} {s : List Stim}
    (hres : buildStimuli catalog bd = .ok s) (hn : (shuffle s).length = bd.n) :
    generate shuffle catalog bd = .ok ((shuffle s).enum.map (fun x => (x.1 + 1, x.2))) := by
  simp [generate, hres, hn]

lemma generate_error_of {shuffle : List Stim → List Stim} {catalog : Catalog}
    {bd : BlockDef} {s : List Stim}
    (hres : buildStimuli catalog bd = .ok s) (hn : (shuffle s).length ≠ bd.n) :
    generate shuffle catalog bd = .error (.countMismatch (shuffle s).length bd.n) := by
  simp [generate, hres, hn]

lemma generate_ok_inv {shuffle : List Stim → List Stim} {catalog : Catalog}
    {bd : BlockDef} {out : List (Nat × Stim)}
    (h : generate shuffle catalog bd = .ok out) :
    ∃ s, buildStimuli catalog bd = .ok s ∧ (shuffle s).length = bd.n ∧
      out = (shuffle s).enum.map (fun x => (x.1 + 1, x.2)) := by
  unfold generate at h
  cases hb : buildStimuli catalog bd with
  | error e => rw [hb] at h; exact absurd h (by simp)
  | ok s =>
    rw [hb] at h
    by_cases hc : (shuffle s).length = bd.n
    · refine ⟨s, rfl, hc, ?_⟩
      simp only [hc, ne_eq, not_true_eq_false, if_false] at h
      simp only [Except.ok.injEq] at h
      exact h.symm
    · simp only [ne_eq, hc, not_false_eq_true, if_true] at h
      exact absurd h (by simp)

lemma stimCount_inv {catalog : Catalog} {bd : BlockDef} {k : Nat}
    (h : stimCount catalog bd = some k) :
    ∃ s, buildStimuli catalog bd = .ok s ∧ s.length = k := by
  unfold stimCount at h
  cases hb : buildStimuli catalog bd with
  | error e => rw [hb] at h; simp [Except.toOption] at h
  | ok s =>
    rw [hb] at h
    simp [Except.toOption] at h
    exact ⟨s, rfl, h⟩

lemma mem_expandedPairs {catalog : Catalog} {side : String}
    {ps : List (String × String)} {x : Stim} (h : x ∈ expandedPairs catalog side ps) :
    x.side = side ∧ (x.cat, x.lvl) ∈ ps := by
  simp only [expandedPairs, List.mem_flatMap, List.mem_map] at h
  obtain ⟨⟨c, l⟩, hq, w, hw, rfl⟩ := h
  exact ⟨rfl, hq⟩

lemma mem_mkTrials {p : Player} {numbered : List (Nat × Stim)} {t : Trial}
    (h : t ∈ mkTrials p numbered) :
    t.player = p.id ∧ t.block = p.round_number := by
  simp only [mkTrials, List.mem_map] at h
  obtain ⟨x, hx, rfl⟩ := h
  exact ⟨rfl, rfl⟩

lemma creating_ok_forall {shuffle : List Stim → List Stim} {catalog : Catalog}
    {blocks : List BlockDef} :
    ∀ {players : List Player} {L : List Trial},
      creating_session shuffle catalog blocks players = .ok L →
      ∀ p ∈ players, ∃ seg, playerTrials shuffle catalog blocks p = .ok seg := by
  intro players
  induction players with
  | nil => intro L _ p hp; exact absurd hp (by simp)
  | cons q ps ih =>
    intro L h p hp
    simp only [creating_session] at h
    cases hq : playerTrials shuffle catalog blocks q with
    | error e => rw [hq] at h; exact absurd h (by simp)
    | ok seg =>
      rw [hq] at h
      cases hr : creating_session shuffle catalog blocks ps with
      | error e => rw [hr] at h; exact absurd h (by simp)
      | ok rest =>
        rcases List.mem_cons.mp hp with rfl | hmem
        · exact ⟨seg, hq⟩
        · exact ih hr p hmem

lemma creating_ok_flatMap {shuffle : List Stim → List Stim} {catalog : Catalog}
    {blocks : List BlockDef} :
    ∀ {players : List Player} {L : List Trial},
      creating_session shuffle catalog blocks players = .ok L →
      L = players.flatMap
        (fun p => (playerTrials shuffle catalog blocks p).toOption.getD []) := by
  intro players
  induction players with
  | nil =>
    intro L h
    simp only [creating_session, Except.ok.injEq] at h
    simp [← h]
  | cons q ps ih =>
    intro L h
    simp only [creating_session] at h
    cases hq : playerTrials shuffle catalog blocks q with
    | error e => rw [hq] at h; exact absurd h (by simp)
    | ok seg =>
      rw [hq] at h
      cases hr : creating_session shuffle catalog blocks ps with
      | error e => rw [hr] at h; exact absurd h (by simp)
      | ok rest =>
        rw [hr] at h
        simp only [Except.ok.injEq] at h
        rw [← h, ih hr]
        simp [List.flatMap_cons, hq, Except.toOption]

lemma creating_ok_of_forall {shuffle : List Stim → List Stim} {catalog : Catalog}
    {blocks : List BlockDef} :
    ∀ {players : List Player},
      (∀ p ∈ players, ∃ seg, playerTrials shuffle catalog blocks p = .ok seg) →
      creating_session shuffle catalog blocks players =
        .ok (players.flatMap
          (fun p => (playerTrials shuffle catalog blocks p).toOption.getD [])) := by
  intro players
  induction players with
  | nil => intro _; simp [creating_session]
  | cons q ps ih =>
    intro h
    obtain ⟨seg, hseg⟩ := h q (List.mem_cons_self q ps)
    have hrest := ih (fun p hp => h p (List.mem_cons_of_mem q hp))
    simp [creating_session, hseg, hrest, List.flatMap_cons, Except.toOption]

lemma creating_error_of_mem {shuffle : List Stim → List Stim} {catalog : Catalog}
    {blocks : List BlockDef} {p : Player} {e : GenError} :
    ∀ {players : List Player}, p ∈ players →
      playerTrials shuffle catalog blocks p = .error e →
      ∃ e2, creating_session shuffle catalog blocks players = .error e2 := by
  intro players
  induction players with
  | nil => intro hp _; exact absurd hp (by simp)
  | cons q ps ih =>
    intro hp he
    rcases List.mem_cons.mp hp with rfl | hmem
    · exact ⟨e, by simp [creating_session, he]⟩
    · cases hq : playerTrials shuffle catalog blocks q with
      | error e3 => exact ⟨e3, by simp [creating_session, hq]⟩
      | ok seg =>
        obtain ⟨e2, h2⟩ := ih hmem he
        exact ⟨e2, by simp [creating_session, hq, h2]⟩

lemma playerTrials_ok_inv {shuffle : List Stim → List Stim} {catalog : Catalog}
    {blocks : List BlockDef} {p : Player} {seg : List Trial}
    (h : playerTrials shuffle catalog blocks p = .ok seg) :
    ∃ bd numbered, blocks[p.round_number - 1]? = some bd ∧
      generate shuffle catalog bd = .ok numbered ∧ seg = mkTrials p numbered := by
  unfold playerTrials at h
  cases hb : blocks[p.round_number - 1]? with
  | none => rw [hb] at h; exact absurd h (by simp)
  | some bd =>
    rw [hb] at h
    dsimp only at h
    cases hg : generate shuffle catalog bd with
    | error e => rw [hg] at h; exact absurd h (by simp)
    | ok numbered =>
      rw [hg] at h
      simp only [Except.ok.injEq] at h
      exact ⟨bd, numbered, rfl, hg, h.symm⟩

/-
Claim theorems
-/

/-- Claim C1: for every block definition whose referenced (category,
level) pairs all resolve in the catalog (buildStimuli succeeds with
sequence s) and which satisfies the BlockDefinition invariant that the
declared count equals the expansion size, generation under any
permutation returns exactly bd.n tuples, and their trial indices are the
list 1, 2, ..., bd.n, hence the contiguous set from 1 to n with no
duplicates. -/
theorem c1_generate_count_indices (shuffle : List Stim → List Stim)
    (catalog : Catalog) (bd : BlockDef) (s : List Stim)
    (hshuf : ∀ l : List Stim, (shuffle l).Perm l)
    (hres : buildStimuli catalog bd = .ok s)
    (hn : s.length = bd.n) :
    ∃ out, generate shuffle catalog bd = .ok out ∧ out.length = bd.n ∧
      out.map Prod.fst = List.range' 1 bd.n := by
  have hlen : (shuffle s).length = bd.n := by rw [(hshuf s).length_eq, hn]
  refine ⟨_, generate_ok_of hres hlen, ?_, ?_⟩
  · have h1 := numbered_fst (shuffle s)
    have h2 := congrArg List.length h1
    rw [List.length_map, List.length_range'] at h2
    rw [h2, hlen]
  · rw [numbered_fst, hlen]

/-- Witness for C1: scenario A with the reverse permutation. -/
theorem c1_witness :
    ∃ out, generate List.reverse CAT_A BLOCK_A = .ok out ∧
      out.length = BLOCK_A.n ∧ out.map Prod.fst = List.range' 1 BLOCK_A.n :=
  c1_generate_count_indices List.reverse CAT_A BLOCK_A S_A
    (fun l => List.reverse_perm l) rfl rfl

/-- Claim C2: when the pairs of a block all resolve but the expansion
size differs from the declared n, generation fails with the
configuration-mismatch error carrying both counts, and no Trial record
is persisted for any session build in which some player uses this
block. -/
theorem c2_mismatch_aborts (shuffle : List Stim → List Stim)
    (catalog : Catalog) (bd : BlockDef) (s : List Stim)
    (hshuf : ∀ l : List Stim, (shuffle l).Perm l)
    (hres : buildStimuli catalog bd = .ok s)
    (hn : s.length ≠ bd.n) :
    generate shuffle catalog bd = .error (.countMismatch s.length bd.n) ∧
    ∀ blocks players, (∃ p ∈ players, blocks[p.round_number - 1]? = some bd) →
      persistedTrials shuffle catalog blocks players = [] := by
  have hlen : (shuffle s).length = s.length := (hshuf s).length_eq
  have hg : generate shuffle catalog bd = .error (.countMismatch s.length bd.n) := by
    have h := generate_error_of hres (by rw [hlen]; exact hn)
    rwa [hlen] at h
  refine ⟨hg, ?_⟩
  rintro blocks players ⟨p, hp, hbd⟩
  have hpt : playerTrials shuffle catalog blocks p =
      .error (.countMismatch s.length bd.n) := by
    unfold playerTrials
    rw [hbd]
    dsimp only
    rw [hg]
  obtain ⟨e2, h2⟩ := creating_error_of_mem hp hpt
  simp [persistedTrials, h2]

/-- Witness for C2: BLOCK_B declares n = 14 but expands to 4 stimuli
under CAT_A; generation errors with both counts and a one-player build
persists nothing. -/
theorem c2_witness :
    generate List.reverse CAT_A BLOCK_B = .error (.countMismatch 4 14) ∧
    persistedTrials List.reverse CAT_A [BLOCK_B] [⟨1, 1⟩] = [] := by
  have h := c2_mismatch_aborts List.reverse CAT_A BLOCK_B S_A
    (fun l => List.reverse_perm l) rfl (by decide)
  exact ⟨h.1, h.2 [BLOCK_B] [⟨1, 1⟩] ⟨⟨1, 1⟩, List.mem_singleton_self _, rfl⟩⟩

/-- Claim C3: every tuple generation outputs carries a (category, level)
pair listed on the left or right side of the block, its side tag names
the side it came from, and the multiset of output tuples is exactly the
word-by-word expansion of the referenced pairs (each catalog word of
each referenced pair contributes exactly one tuple). -/
theorem c3_tagging (shuffle : List Stim → List Stim) (catalog : Catalog)
    (bd : BlockDef) (out : List (Nat × Stim))
    (hshuf : ∀ l : List Stim, (shuffle l).Perm l)
    (hok : generate shuffle catalog bd = .ok out) :
    (∀ x ∈ out, (x.2.side = "left" ∧ (x.2.cat, x.2.lvl) ∈ bd.left) ∨
                (x.2.side = "right" ∧ (x.2.cat, x.2.lvl) ∈ bd.right)) ∧
    (out.map Prod.snd).Perm
      (expandedPairs catalog "left" bd.left ++ expandedPairs catalog "right" bd.right) := by
  obtain ⟨s, hres, hlen, rfl⟩ := generate_ok_inv hok
  have hsnd := numbered_snd (shuffle s)
  have hperm : (shuffle s).Perm s := hshuf s
  have hs := buildStimuli_ok_eq hres
  constructor
  · intro x hx
    have hx2 : x.2 ∈ shuffle s := by
      rw [← hsnd]
      exact List.mem_map_of_mem Prod.snd hx
    have hxs : x.2 ∈ s := hperm.mem_iff.mp hx2
    rw [hs] at hxs
    rcases List.mem_append.mp hxs with hL | hR
    · exact Or.inl (mem_expandedPairs hL)
    · exact Or.inr (mem_expandedPairs hR)
  · rw [hsnd, ← hs]
    exact hperm

/-- Witness for C3: scenario A with the reverse permutation. -/
theorem c3_witness :
    (∀ x ∈ OUT_A, (x.2.side = "left" ∧ (x.2.cat, x.2.lvl) ∈ BLOCK_A.left) ∨
                  (x.2.side = "right" ∧ (x.2.cat, x.2.lvl) ∈ BLOCK_A.right)) ∧
    (OUT_A.map Prod.snd).Perm
      (expandedPairs CAT_A "left" BLOCK_A.left ++ expandedPairs CAT_A "right" BLOCK_A.right) :=
  c3_tagging List.reverse CAT_A BLOCK_A OUT_A (fun l => List.reverse_perm l) rfl

/-- Claim C4: two generation runs on the same block and catalog under two
different permutations output the same multiset of (side, category,
level, word) tuples; the shuffle changes only the order. -/
theorem c4_multiset_stable (shuffle1 shuffle2 : List Stim → List Stim)
    (catalog : Catalog) (bd : BlockDef) (out1 out2 : List (Nat × Stim))
    (h1 : ∀ l : List Stim, (shuffle1 l).Perm l)
    (h2 : ∀ l : List Stim, (shuffle2 l).Perm l)
    (hok1 : generate shuffle1 catalog bd = .ok out1)
    (hok2 : generate shuffle2 catalog bd = .ok out2) :
    (out1.map Prod.snd).Perm (out2.map Prod.snd) := by
  obtain ⟨s1, hres1, _, rfl⟩ := generate_ok_inv hok1
  obtain ⟨s2, hres2, _, rfl⟩ := generate_ok_inv hok2
  rw [hres1] at hres2
  have hss : s1 = s2 := by
    simpa using hres2
  subst hss
  rw [numbered_snd, numbered_snd]
  exact (h1 s1).trans (h2 s1).symm

/-- Witness for C4: scenario A under the identity and the reverse
permutations. -/
theorem c4_witness : (OUT_ID.map Prod.snd).Perm (OUT_A.map Prod.snd) :=
  c4_multiset_stable id List.reverse CAT_A BLOCK_A OUT_ID OUT_A
    (fun l => List.Perm.refl l) (fun l => List.reverse_perm l) rfl rfl

/-- Claim C5: under scenario A of the spec, generation returns exactly 4
tuples, with trial indices 1..4, two tuples tagged side left holding the
Liberal Arts words History and Arts, and two tuples tagged side right
holding the Science words Astronomy and Math. -/
theorem c5_scenario_a (shuffle : List Stim → List Stim)
    (hshuf : ∀ l : List Stim, (shuffle l).Perm l) :
    ∃ out, generate shuffle CAT_A BLOCK_A = .ok out ∧ out.length = 4 ∧
      out.map Prod.fst = List.range' 1 4 ∧
      ((out.map Prod.snd).filter (fun st => st.side == "left")).Perm
        [⟨"left", "concepts", "Liberal Arts", "History"⟩,
         ⟨"left", "concepts", "Liberal Arts", "Arts"⟩] ∧
      ((out.map Prod.snd).filter (fun st => st.side == "right")).Perm
        [⟨"right", "concepts", "Science", "Astronomy"⟩,
         ⟨"right", "concepts", "Science", "Math"⟩] := by
  have hres : buildStimuli CAT_A BLOCK_A = .ok S_A := rfl
  have hlen : (shuffle S_A).length = BLOCK_A.n := by
    rw [(hshuf S_A).length_eq]; rfl
  refine ⟨_, generate_ok_of hres hlen, ?_, ?_, ?_, ?_⟩
  · have h1 := numbered_fst (shuffle S_A)
    have h2 := congrArg List.length h1
    rw [List.length_map, List.length_range'] at h2
    rw [h2, hlen]
    rfl
  · rw [numbered_fst, hlen]
    rfl
  · rw [numbered_snd]
    exact (((hshuf S_A).filter _).trans (by decide))
  · rw [numbered_snd]
    exact (((hshuf S_A).filter _).trans (by decide))

/-- Witness for C5: the reverse permutation. -/
theorem c5_witness :
    ∃ out, generate List.reverse CAT_A BLOCK_A = .ok out ∧ out.length = 4 ∧
      out.map Prod.fst = List.range' 1 4 ∧
      ((out.map Prod.snd).filter (fun st => st.side == "left")).Perm
        [⟨"left", "concepts", "Liberal Arts", "History"⟩,
         ⟨"left", "concepts", "Liberal Arts", "Arts"⟩] ∧
      ((out.map Prod.snd).filter (fun st => st.side == "right")).Perm
        [⟨"right", "concepts", "Science", "Astronomy"⟩,
         ⟨"right", "concepts", "Science", "Math"⟩] :=
  c5_scenario_a List.reverse (fun l => List.reverse_perm l)

/-- Claim C6: in a successful session build, every player got its block
from position round_number - 1 of the block list, the generator ran
exactly once per player (the output is the concatenation of exactly one
generated segment per player, in player order), and every resulting
Trial carries the round number of its player as block and the id of its
player as owner. -/
theorem c6_session_build (shuffle : List Stim → List Stim) (catalog : Catalog)
    (blocks : List BlockDef) (players : List Player) (L : List Trial)
    (hok : creating_session shuffle catalog blocks players = .ok L) :
    (∀ p ∈ players, ∃ bd numbered, blocks[p.round_number - 1]? = some bd ∧
      generate shuffle catalog bd = .ok numbered ∧
      playerTrials shuffle catalog blocks p = .ok (mkTrials p numbered)) ∧
    L = players.flatMap
      (fun p => (playerTrials shuffle catalog blocks p).toOption.getD []) ∧
    ∀ t ∈ L, ∃ p ∈ players, t.player = p.id ∧ t.block = p.round_number := by
  have hall := creating_ok_forall hok
  have hL := creating_ok_flatMap hok
  refine ⟨?_, hL, ?_⟩
  · intro p hp
    obtain ⟨seg, hseg⟩ := hall p hp
    obtain ⟨bd, numbered, hbd, hg, hseq⟩ := playerTrials_ok_inv hseg
    exact ⟨bd, numbered, hbd, hg, by rw [hseg, hseq]⟩
  · intro t ht
    rw [hL] at ht
    obtain ⟨p, hp, ht2⟩ := List.mem_flatMap.mp ht
    obtain ⟨seg, hseg⟩ := hall p hp
    rw [hseg] at ht2
    simp only [Except.toOption, Option.getD_some] at ht2
    obtain ⟨bd, numbered, hbd, hg, hseq⟩ := playerTrials_ok_inv hseg
    rw [hseq] at ht2
    obtain ⟨h1, h2⟩ := mem_mkTrials ht2
    exact ⟨p, hp, h1, h2⟩

/-- Witness for C6: a one-player build over scenario A. -/
theorem c6_witness :
    (∀ p ∈ ([⟨7, 1⟩] : List Player), ∃ bd numbered,
        ([BLOCK_A] : List BlockDef)[p.round_number - 1]? = some bd ∧
        generate List.reverse CAT_A bd = .ok numbered ∧
        playerTrials List.reverse CAT_A [BLOCK_A] p = .ok (mkTrials p numbered)) ∧
    persistedTrials List.reverse CAT_A [BLOCK_A] [⟨7, 1⟩] =
      ([⟨7, 1⟩] : List Player).flatMap
        (fun p => (playerTrials List.reverse CAT_A [BLOCK_A] p).toOption.getD []) ∧
    ∀ t ∈ persistedTrials List.reverse CAT_A [BLOCK_A] [⟨7, 1⟩],
      ∃ p ∈ ([⟨7, 1⟩] : List Player), t.player = p.id ∧ t.block = p.round_number :=
  c6_session_build List.reverse CAT_A [BLOCK_A] [⟨7, 1⟩]
    (persistedTrials List.reverse CAT_A [BLOCK_A] [⟨7, 1⟩]) rfl

/-- Claim C7: the session build is all-or-nothing. If the generator fails
for any player, the whole build raises and the bulk-create persists
nothing; if it succeeds for every player, the build returns the
concatenation of all segments and exactly that list is persisted by the
single bulk-create. -/
theorem c7_atomicity (shuffle : List Stim → List Stim) (catalog : Catalog)
    (blocks : List BlockDef) (players : List Player) :
    ((∃ p ∈ players, ∃ e, playerTrials shuffle catalog blocks p = .error e) →
      (∃ e2, creating_session shuffle catalog blocks players = .error e2) ∧
      persistedTrials shuffle catalog blocks players = []) ∧
    ((∀ p ∈ players, ∃ seg, playerTrials shuffle catalog blocks p = .ok seg) →
      creating_session shuffle catalog blocks players =
        .ok (players.flatMap
          (fun p => (playerTrials shuffle catalog blocks p).toOption.getD [])) ∧
      persistedTrials shuffle catalog blocks players =
        players.flatMap
          (fun p => (playerTrials shuffle catalog blocks p).toOption.getD [])) := by
  constructor
  · rintro ⟨p, hp, e, he⟩
    obtain ⟨e2, h2⟩ := creating_error_of_mem hp he
    exact ⟨⟨e2, h2⟩, by simp [persistedTrials, h2]⟩
  · intro h
    have hc := creating_ok_of_forall h
    exact ⟨hc, by simp [persistedTrials, hc]⟩

/-- Witness for C7: a player whose round number has no block fails the
whole build and nothing is persisted. -/
theorem c7_witness :
    (∃ e2, creating_session List.reverse STIMULI BLOCKS [⟨1, 99⟩] = .error e2) ∧
    persistedTrials List.reverse STIMULI BLOCKS [⟨1, 99⟩] = [] :=
  (c7_atomicity List.reverse STIMULI BLOCKS [⟨1, 99⟩]).1
    ⟨⟨1, 99⟩, List.mem_singleton_self _, ⟨.badRound 99, rfl⟩⟩

/-- Claim C8: the export emits first the fixed header in the fixed field
order, then exactly one row per stored Trial, each row holding the codes
of the owning player followed by the eight Trial fields in the same
order, every Trial field value passed through the sanitizer. -/
theorem c8_export_shape (san : CellVal → String) (codes : Nat → String × String)
    (store : List Trial) :
    (custom_export san codes store).head? =
      some ["session", "participant_code", "block", "trial", "stimulus",
            "stimulus_class", "stimulus_level", "response_key",
            "response_correct", "response_time_ms"] ∧
    (custom_export san codes store).length = store.length + 1 ∧
    ∀ i : Nat, (custom_export san codes store)[i + 1]? =
      (store[i]?).map (fun t =>
        [(codes t.player).1, (codes t.player).2]
          ++ fields_to_export.map (fun f => san (trialField t f))) := by
  refine ⟨rfl, ?_, ?_⟩
  · simp [custom_export]
  · intro i
    simp [custom_export]

/-- Witness for C8: a one-Trial store under a constant sanitizer. -/
theorem c8_witness :
    (custom_export (fun _ => "x") (fun _ => ("S", "P"))
        [⟨1, 1, "Man", "attributes", "Male", none, none, none, 5⟩]).head? =
      some ["session", "participant_code", "block", "trial", "stimulus",
            "stimulus_class", "stimulus_level", "response_key",
            "response_correct", "response_time_ms"] ∧
    (custom_export (fun _ => "x") (fun _ => ("S", "P"))
        [⟨1, 1, "Man", "attributes", "Male", none, none, none, 5⟩]).length =
      ([⟨1, 1, "Man", "attributes", "Male", none, none, none, 5⟩] : List Trial).length + 1 ∧
    ∀ i : Nat, (custom_export (fun _ => "x") (fun _ => ("S", "P"))
        [⟨1, 1, "Man", "attributes", "Male", none, none, none, 5⟩])[i + 1]? =
      ((([⟨1, 1, "Man", "attributes", "Male", none, none, none, 5⟩] : List Trial))[i]?).map
        (fun t => [((fun _ : Nat => ("S", "P")) t.player).1,
                   ((fun _ : Nat => ("S", "P")) t.player).2]
          ++ fields_to_export.map (fun f => (fun _ : CellVal => "x") (trialField t f))) :=
  c8_export_shape (fun _ => "x") (fun _ => ("S", "P"))
    [⟨1, 1, "Man", "attributes", "Male", none, none, none, 5⟩]

/-- Claim C9 counterexample: the sequence whose length the implementation
validates is the already shuffled one, because the source shuffles at
line 165 and checks at line 167; so the count validation is not performed
before the random permutation. At scenario A with the reverse permutation
the checked sequence differs from the pre-shuffle sequence. -/
theorem c9_counterexample :
    checkedStimuli List.reverse CAT_A BLOCK_A ≠ preShuffleStimuli CAT_A BLOCK_A := by
  decide

/-- Claim C9 as amended: the implementation applies the permutation
before the count validation, but because a permutation preserves length
it is equivalent to the reference algorithm that checks first: for every
permutation it fails on exactly the same inputs with the same error and
otherwise returns the same shuffled output. -/
theorem c9_generate_eq_spec (shuffle : List Stim → List Stim)
    (catalog : Catalog) (bd : BlockDef)
    (hshuf : ∀ l : List Stim, (shuffle l).Perm l) :
    generate shuffle catalog bd = generateSpec shuffle catalog bd := by
  unfold generate generateSpec
  cases hb : buildStimuli catalog bd with
  | error e => rfl
  | ok s => simp [(hshuf s).length_eq]

/-- Witness for C9: the reverse permutation at scenario A. -/
theorem c9_witness :
    generate List.reverse CAT_A BLOCK_A = generateSpec List.reverse CAT_A BLOCK_A :=
  c9_generate_eq_spec List.reverse CAT_A BLOCK_A (fun l => List.reverse_perm l)

lemma shipped_pairs_resolve :
    ∀ bd ∈ BLOCKS, ∀ q ∈ bd.left ++ bd.right,
      (catLookup STIMULI q.1 q.2).isSome = true := by decide

lemma shipped_counts : ∀ bd ∈ BLOCKS, stimCount STIMULI bd = some bd.n := by decide

/-- Claim C10: in the shipped configuration every (category, level) pair
referenced by a block resolves in the catalog, every block expands to
exactly its declared n stimuli (14 for the one-pair-per-side practice
blocks, 28 for the two-pairs-per-side test blocks), and consequently for
any player with round number between 1 and 7 the session build succeeds
for that player under any permutation, so neither the catalog-lookup
failure nor the count-mismatch branch is reachable. -/
theorem c10_shipped_config :
    (∀ bd ∈ BLOCKS, ∀ q ∈ bd.left ++ bd.right,
      (catLookup STIMULI q.1 q.2).isSome = true) ∧
    (∀ bd ∈ BLOCKS, stimCount STIMULI bd = some bd.n) ∧
    BLOCKS.map BlockDef.n = [14, 14, 28, 28, 14, 28, 28] ∧
    BLOCKS.map (fun bd => (bd.left.length, bd.right.length)) =
      [(1, 1), (1, 1), (2, 2), (2, 2), (1, 1), (2, 2), (2, 2)] ∧
    ∀ shuffle : List Stim → List Stim, (∀ l : List Stim, (shuffle l).Perm l) →
      ∀ p : Player, 1 ≤ p.round_number → p.round_number ≤ 7 →
        ∃ seg, playerTrials shuffle STIMULI BLOCKS p = .ok seg := by
  refine ⟨shipped_pairs_resolve, shipped_counts, rfl, rfl, ?_⟩
  intro shuffle hshuf p h1 h7
  have hlt : p.round_number - 1 < BLOCKS.length := by
    have hb7 : BLOCKS.length = 7 := rfl
    omega
  have hget : BLOCKS[p.round_number - 1]? =
      some (BLOCKS.get ⟨p.round_number - 1, hlt⟩) := by
    simp [List.getElem?_eq_getElem hlt, List.get_eq_getElem]
  have hmem : BLOCKS.get ⟨p.round_number - 1, hlt⟩ ∈ BLOCKS := List.get_mem _ _ hlt
  obtain ⟨s, hres, hlen⟩ := stimCount_inv (shipped_counts _ hmem)
  have hsl : (shuffle s).length = (BLOCKS.get ⟨p.round_number - 1, hlt⟩).n := by
    rw [(hshuf s).length_eq, hlen]
  refine ⟨mkTrials p ((shuffle s).enum.map (fun x => (x.1 + 1, x.2))), ?_⟩
  unfold playerTrials
  rw [hget]
  dsimp only
  rw [generate_ok_of hres hsl]

/-- Witness for C10: a player in round 4 under the reverse permutation. -/
theorem c10_witness :
    ∃ seg, playerTrials List.reverse STIMULI BLOCKS ⟨3, 4⟩ = .ok seg :=
  c10_shipped_config.2.2.2.2 List.reverse (fun l => List.reverse_perm l)
    ⟨3, 4⟩ (by decide) (by decide)

end IAT
